import Mathlib

/-!
A verification development for the mjolnir `synapse_antispam` module.

The definitions below are shallow embeddings of the Python sources:

* `matching.py` — the glob → regex compiler (`glob_to_regex`) and its
  wildcard-run collapsing; regexes are modelled as token lists (`Tok`)
  whose matching semantics (`toksMatch`) is full-string, case-insensitive
  matching in which `.` does not match a newline, mirroring the compiled
  pattern `\A ... \Z` with `re.IGNORECASE`.
* `list_rule.py` — rule-type / recommendation normalization and `ListRule`.
* `ban_list.py` — `BanList.build`, the full and incremental rebuild of the
  three rule partitions from a snapshot of state events.
* `antispam.py` — the eval-based `AntiSpam` decision queries, with the
  dynamic evaluation of an admin-supplied expression modelled as a
  possibly-failing function carried by each compiled check.

The `PolicyEngine` ban queries described by the specification are not part
of the provided sources; they are modelled from the spec where noted.
-/

namespace Mjolnir

/-! ### Glob compilation (`matching.py`, `glob_to_regex`) -/

/-- A wildcard character of a glob: `?` or `*` (the character class of
`_WILDCARD_RUN`). -/
def isWildcard (c : Char) : Bool := c == '?' || c == '*'

/-- Splitting of a glob into chunks, modelling
`_WILDCARD_RUN.split(glob)`: the result alternates literal chunks and
maximal wildcard runs, beginning and ending with a (possibly empty)
literal chunk, except that middle literal chunks are never empty. -/
def splitRuns : List Char → List (List Char)
  | [] => [[]]
  | c :: cs =>
    if isWildcard c then
      match splitRuns cs with
      | [] :: run :: tail => [] :: (c :: run) :: tail
      | chunks => [] :: [c] :: chunks
    else
      match splitRuns cs with
      | chunk :: tail => (c :: chunk) :: tail
      | [] => [[c]]

/-- Whether a chunk starts with a wildcard, modelling
`_WILDCARD_RUN.match(chunk)` (which anchors at the start of the chunk). -/
def startsWithWildcard : List Char → Bool
  | [] => false
  | c :: _ => isWildcard c

/-- One atom of the compiled pattern:
literal text (the `re.escape`d chunk), an exactly-`q`-characters
quantifier (the regex piece built for a run without a star), or an
at-least-`q`-characters quantifier (the piece built for a run with one). -/
inductive Tok where
  | lit (cs : List Char)
  | exact (q : Nat)
  | atLeast (q : Nat)
deriving DecidableEq, Repr

/-- The chunk loop of `glob_to_regex`: a chunk that does not start with a
wildcard is escaped verbatim; a wildcard chunk is collapsed to one
quantifier token from its `?`-count and whether it contains `*`. -/
def chunkToTok (chunk : List Char) : Tok :=
  if startsWithWildcard chunk then
    let qmarks := chunk.countP (fun c => c == '?')
    if chunk.contains '*' then Tok.atLeast qmarks else Tok.exact qmarks
  else Tok.lit chunk

/-- `glob_to_regex` on the character list of the glob. -/
def glob_to_regex_list (cs : List Char) : List Tok :=
  (splitRuns cs).map chunkToTok

/-- `glob_to_regex(glob)` with `word_boundary = False` (the only mode the
rule engine uses): the compiled pattern is the token sequence, and the
anchoring `\A ... \Z` together with `re.IGNORECASE` is part of the
matching semantics `toksMatch` below. -/
def glob_to_regex (glob : String) : List Tok :=
  glob_to_regex_list glob.toList

/-- Case-insensitive character comparison, modelling `re.IGNORECASE`. -/
def charMatchCI (p c : Char) : Bool := p.toLower == c.toLower

/-- Strip a literal chunk off the front of the candidate,
case-insensitively; `none` when the candidate does not start with it. -/
def litMatch : List Char → List Char → Option (List Char)
  | [], cs => some cs
  | _ :: _, [] => none
  | p :: ps, c :: cs => if charMatchCI p c then litMatch ps cs else none

/-- What the regex atom `.` matches: any character except a newline
(`re.DOTALL` is not set). -/
def dotChar (c : Char) : Bool := c != '\n'

/-- Full-string matching of a token sequence, i.e. the semantics of the
compiled, anchored pattern: the whole candidate must be consumed. -/
def toksMatch : List Tok → List Char → Bool
  | [], cs => cs.isEmpty
  | Tok.lit ls :: ts, cs =>
    match litMatch ls cs with
    | some rest => toksMatch ts rest
    | none => false
  | Tok.exact q :: ts, cs =>
    decide (q ≤ cs.length) && (cs.take q).all dotChar && toksMatch ts (cs.drop q)
  | Tok.atLeast q :: ts, cs =>
    (List.range (cs.length + 1)).any fun k =>
      decide (q ≤ k) && (cs.take k).all dotChar && toksMatch ts (cs.drop k)

/-- `pattern.match(victim)` for the anchored compiled pattern. -/
def reMatch (toks : List Tok) (s : String) : Bool :=
  toksMatch toks s.toList

/-! ### Rule normalization (`list_rule.py`) -/

def RECOMMENDATION_BAN : String := "m.ban"

def RECOMMENDATION_BAN_TYPES : List String := [RECOMMENDATION_BAN, "org.matrix.mjolnir.ban"]

def RULE_USER : String := "m.room.rule.user"

def USER_RULE_TYPES : List String := [RULE_USER, "org.matrix.mjolnir.rule.user"]

def RULE_ROOM : String := "m.room.rule.room"

def ROOM_RULE_TYPES : List String := [RULE_ROOM, "org.matrix.mjolnir.rule.room"]

def RULE_SERVER : String := "m.room.rule.server"

def SERVER_RULE_TYPES : List String := [RULE_SERVER, "org.matrix.mjolnir.rule.server"]

def RULE_REGISTRATION_EMAIL : String := "m.room.rule.registration.email"

def REGISTRATION_EMAIL_RULE_TYPES : List String :=
  [RULE_REGISTRATION_EMAIL, "org.matrix.mjolnir.rule.registration.email"]

def RULE_REGISTRATION_IP : String := "m.room.rule.registration.ip"

def REGISTRATION_IP_RULE_TYPES : List String :=
  [RULE_REGISTRATION_IP, "org.matrix.mjolnir.rule.registration.ip"]

def ALL_RULE_TYPES : List String :=
  USER_RULE_TYPES ++ ROOM_RULE_TYPES ++ SERVER_RULE_TYPES
    ++ REGISTRATION_EMAIL_RULE_TYPES ++ REGISTRATION_IP_RULE_TYPES

/-- `recommendation_to_stable`: a recognized ban spelling normalizes to
`m.ban`; anything else normalizes to `None` (the unknown sentinel). -/
def recommendation_to_stable (recommendation : String) : Option String :=
  if recommendation ∈ RECOMMENDATION_BAN_TYPES then some RECOMMENDATION_BAN else none

/-- `rule_type_to_stable`: a recognized rule-type spelling normalizes to
its stable name; anything else normalizes to `None`. -/
def rule_type_to_stable (rule : String) : Option String :=
  if rule ∈ USER_RULE_TYPES then some RULE_USER
  else if rule ∈ ROOM_RULE_TYPES then some RULE_ROOM
  else if rule ∈ SERVER_RULE_TYPES then some RULE_SERVER
  else if rule ∈ REGISTRATION_EMAIL_RULE_TYPES then some RULE_REGISTRATION_EMAIL
  else if rule ∈ REGISTRATION_IP_RULE_TYPES then some RULE_REGISTRATION_IP
  else none

/-- `ListRule`: entity glob, its compiled regex, and the normalized
action and kind (each `none` when the raw spelling is unrecognized). -/
structure ListRule where
  entity : String
  regex : List Tok
  action : Option String
  reason : String
  kind : Option String
deriving DecidableEq, Repr

/-- `ListRule.__init__`: total — the glob always compiles and unrecognized
action or kind spellings normalize to the unknown sentinel. -/
def ListRule.make (entity action reason kind : String) : ListRule :=
  { entity := entity
    regex := glob_to_regex entity
    action := recommendation_to_stable action
    reason := reason
    kind := rule_type_to_stable kind }

/-- `ListRule.matches(victim)`: `self.regex.match(victim)` on the anchored
compiled pattern. -/
def ListRule.matches (rule : ListRule) (victim : String) : Bool :=
  reMatch rule.regex victim

/-! ### Events and the ban list rebuild (`ban_list.py`) -/

/-- The `content` dict of a state event, restricted to the three fields
`BanList.build` reads; a field holds `none` when absent (the default of
`content.get(field, None)`); an absent `content` dict behaves exactly like
an empty one, so it is represented by the all-`none` value. -/
structure Content where
  entity : Option String
  recommendation : Option String
  reason : Option String
deriving DecidableEq, Repr

/-- A state event as `BanList.build` consumes it.  `type?` is `none` when
the `type` field is absent (`event.get("type", "")` then yields `""`);
`state_key?` is `none` when the field is absent and `some none` when it is
present but null; `event_id` is the event's identity attribute. -/
structure Event where
  type? : Option String
  state_key? : Option (Option String)
  content : Content
  event_id : String
deriving DecidableEq, Repr

/-- `event.get("type", "")`. -/
def event_type (e : Event) : String := e.type?.getD ""

/-- `event.get("state_key", "")`: an absent field yields the empty string,
a present-but-null field yields `none`. -/
def state_key (e : Event) : Option String := e.state_key?.getD (some "")

/-- The three rule partitions of a `BanList`, in the order the source
initializes them. -/
structure BanList where
  server_rules : List ListRule
  user_rules : List ListRule
  room_rules : List ListRule
deriving DecidableEq, Repr

/-- The supersede test of `BanList.build`: the event is skipped when its
type and state key equal those of `with_event` but its identity differs. -/
def superseded (w : Event) (e : Event) : Bool :=
  (event_type w == event_type e) && (state_key w == state_key e)
    && (w.event_id != e.event_id)

/-- The supersede test guarded by `with_event is not None`. -/
def supersededFor : Option Event → Event → Bool
  | none, _ => false
  | some w, e => superseded w e

/-- One iteration of the `for event in events` loop of `BanList.build`:
skip an event whose state key is null, skip an event superseded by
`with_event`, drop an event missing `entity`, `recommendation` or
`reason`, and otherwise append the constructed rule to the partition
selected by the event's type (events of unrecognized or registration
types are appended nowhere). -/
def processEvent (with_event : Option Event) (bl : BanList) (event : Event) : BanList :=
  if state_key event = none then bl
  else if supersededFor with_event event then bl
  else
    match event.content.entity, event.content.recommendation, event.content.reason with
    | some entity, some recommendation, some reason =>
      let rule := ListRule.make entity recommendation reason (event_type event)
      if event_type event ∈ USER_RULE_TYPES then
        { bl with user_rules := bl.user_rules ++ [rule] }
      else if event_type event ∈ ROOM_RULE_TYPES then
        { bl with room_rules := bl.room_rules ++ [rule] }
      else if event_type event ∈ SERVER_RULE_TYPES then
        { bl with server_rules := bl.server_rules ++ [rule] }
      else bl
    | _, _, _ => bl

/-- The body of `run(with_event)` in `BanList.build` after the fetch has
returned `events`: append `with_event` when present, clear the three
partitions of `self` one field at a time, then run the event loop. -/
def runBody (events : List Event) (with_event : Option Event) (self : BanList) : BanList :=
  let events := match with_event with
    | some w => events ++ [w]
    | none => events
  let self := { self with server_rules := [] }
  let self := { self with user_rules := [] }
  let self := { self with room_rules := [] }
  events.foldl (processEvent with_event) self

/-- A rebuild from a snapshot: `buildFrom events none` is the full
rebuild, `buildFrom events (some r)` the incremental rebuild folding in
the freshly observed record `r`. -/
def buildFrom (events : List Event) (with_event : Option Event) : BanList :=
  runBody events with_event ⟨[], [], []⟩

/-- `BanList.build` including the fetch: the state-event fetch
(`yield self.get_relevant_state_events()`) is the first statement of
`run`, so when it fails the exception aborts `run` before any partition
is assigned and the previous `BanList` stays in force (the surrounding
`run_as_background_process` logs the failure instead of raising it). -/
def build (fetched : Except String (List Event)) (with_event : Option Event)
    (self : BanList) : BanList :=
  match fetched with
  | Except.error _ => self
  | Except.ok events => runBody events with_event self

/-- The rule `BanList.build` constructs from a (valid) event. -/
def ruleOfEvent (e : Event) : ListRule :=
  ListRule.make (e.content.entity.getD "") (e.content.recommendation.getD "")
    (e.content.reason.getD "") (event_type e)

/-- All rules of a `BanList`, across its three partitions. -/
def allRules (bl : BanList) : List ListRule :=
  bl.user_rules ++ bl.room_rules ++ bl.server_rules

/-! ### The multi-container decision engine

The `PolicyEngine` ban queries (`is_user_banned`, `is_room_banned`,
`is_server_banned`) are not part of the sources provided for this
repository (only `BanList`, the per-container rule list, is), so they are
modelled from the specification here. -/

/-- Modelled from the spec: the per-query scan — containers in the
engine's map iteration order, each container's partition in construction
order; as soon as the first rule whose pattern matches the candidate is
found the scan returns whether that rule's normalized action is Ban, and
it returns `false` when no rule in any container matches. -/
def scanLists (parts : List (List ListRule)) (candidate : String) : Bool :=
  match parts with
  | [] => false
  | p :: ps =>
    match p.find? (fun rule => ListRule.matches rule candidate) with
    | some rule => rule.action == some RECOMMENDATION_BAN
    | none => scanLists ps candidate

/-- Modelled from the spec: the engine state `rooms_to_lists`, a mapping
from container identifier to its `BanList`, traversed in iteration
(insertion) order. -/
structure PolicyEngine where
  rooms_to_lists : List (String × BanList)

/-- Modelled from the spec: `is_user_banned(user_id)`. -/
def is_user_banned (engine : PolicyEngine) (user_id : String) : Bool :=
  scanLists (engine.rooms_to_lists.map (fun kv => kv.2.user_rules)) user_id

/-- Modelled from the spec: `is_room_banned(room_id)`. -/
def is_room_banned (engine : PolicyEngine) (room_id : String) : Bool :=
  scanLists (engine.rooms_to_lists.map (fun kv => kv.2.room_rules)) room_id

/-- Modelled from the spec: `is_server_banned(domain)`. -/
def is_server_banned (engine : PolicyEngine) (domain : String) : Bool :=
  scanLists (engine.rooms_to_lists.map (fun kv => kv.2.server_rules)) domain

/-- The decision the spec's first-match law describes: the action of the
first rule, in construction order across the concatenated partitions,
whose pattern matches the candidate; `false` when no rule matches.  This
definition follows the spec's words and is compared with the scan above. -/
def bannedOfFirstMatch (rules : List ListRule) (candidate : String) : Bool :=
  match rules.find? (fun rule => ListRule.matches rule candidate) with
  | some rule => rule.action == some RECOMMENDATION_BAN
  | none => false

/-! ### The eval-based decision queries (`antispam.py`)

Each compiled check of the `AntiSpam` class holds `compile()`d code that
`check_event_for_spam` / `user_may_invite` / `check_username_for_spam`
run through `eval` on the query's parameters.  That dynamic evaluation of
an admin-supplied expression is modelled as a function from the
parameters to `Except`: it may produce a string or raise.  The regex
search `re.search(check["pattern"], search)` compiles its pattern at query
time and may equally raise, so it is passed in as a possibly-failing
collaborator function. -/

/-- One entry of `self._code_*_checks` as `_compile_rules` builds it. -/
structure CodeCheck (α : Type) where
  search : α → Except String String
  pattern : String

/-- `AntiSpam.check_event_for_spam`: first matching check wins and yields
spam (`true`); an exception from a check's evaluation or from the pattern
search propagates to the caller. -/
def check_event_for_spam {α : Type} (reSearch : String → String → Except String Bool)
    (checks : List (CodeCheck α)) (event : α) : Except String Bool :=
  match checks with
  | [] => Except.ok false
  | check :: rest =>
    match check.search event with
    | Except.error err => Except.error err
    | Except.ok s =>
      match reSearch check.pattern s with
      | Except.error err => Except.error err
      | Except.ok true => Except.ok true
      | Except.ok false => check_event_for_spam reSearch rest event

/-- `AntiSpam.user_may_invite`: first matching check wins and denies the
invite (`false`); exceptions propagate as in `check_event_for_spam`. -/
def user_may_invite {α : Type} (reSearch : String → String → Except String Bool)
    (checks : List (CodeCheck α)) (params : α) : Except String Bool :=
  match checks with
  | [] => Except.ok true
  | check :: rest =>
    match check.search params with
    | Except.error err => Except.error err
    | Except.ok s =>
      match reSearch check.pattern s with
      | Except.error err => Except.error err
      | Except.ok true => Except.ok false
      | Except.ok false => user_may_invite reSearch rest params

/-- `AntiSpam.check_username_for_spam`: same shape as `user_may_invite`. -/
def check_username_for_spam {α : Type} (reSearch : String → String → Except String Bool)
    (checks : List (CodeCheck α)) (user_profile : α) : Except String Bool :=
  match checks with
  | [] => Except.ok true
  | check :: rest =>
    match check.search user_profile with
    | Except.error err => Except.error err
    | Except.ok s =>
      match reSearch check.pattern s with
      | Except.error err => Except.error err
      | Except.ok true => Except.ok false
      | Except.ok false => check_username_for_spam reSearch rest user_profile

/-- The token the specification prescribes for a maximal wildcard run:
with `q` the count of `?` characters in the run, an "at least `q`
characters" token when the run contains a `*` and an "exactly `q`
characters" token otherwise.  This definition follows the spec's words
and is compared with the compiler's chunk handling. -/
def specRunToken (w : List Char) : Tok :=
  if w.contains '*' then Tok.atLeast (w.countP (fun c => c == '?'))
  else Tok.exact (w.countP (fun c => c == '?'))

/-- Whether a glob fragment ends with a wildcard character. -/
def endsWithWildcard (cs : List Char) : Bool :=
  (cs.getLast?.map isWildcard).getD false

/-! ### Sample data used by concrete witnesses -/

/-- A well-formed user-rule state event with state key `"k"`. -/
def sampleBanUser : Event :=
  { type? := some "m.room.rule.user"
    state_key? := some (some "k")
    content := { entity := some "@old:*", recommendation := some "m.ban", reason := some "r1" }
    event_id := "ev1" }

/-- A fresh well-formed user-rule event with the same type and state key
as `sampleBanUser` but a different event id. -/
def sampleFreshUser : Event :=
  { type? := some "m.room.rule.user"
    state_key? := some (some "k")
    content := { entity := some "@new:*", recommendation := some "m.ban", reason := some "r2" }
    event_id := "ev2" }

/-- A fresh user-rule event with the same type and state key as
`sampleBanUser` but a different event id, missing its `reason` field. -/
def sampleMalformedFresh : Event :=
  { type? := some "m.room.rule.user"
    state_key? := some (some "k")
    content := { entity := some "@new:*", recommendation := some "m.ban", reason := none }
    event_id := "ev3" }

/-- A well-formed user-rule event whose `state_key` field is absent. -/
def sampleNoKey : Event :=
  { type? := some "m.room.rule.user"
    state_key? := none
    content := { entity := some "@keyless:*", recommendation := some "m.ban", reason := some "r4" }
    event_id := "ev4" }

/-- A ban rule on the glob `@spam:*`. -/
def ruleA : ListRule := ListRule.make "@spam:*" "m.ban" "spam" "m.room.rule.user"

/-- A rule on the same glob whose recommendation is not a ban. -/
def ruleB : ListRule := ListRule.make "@spam:*" "other" "spam" "m.room.rule.user"

/-! ### Helper lemmas on the rebuild fold -/

example : glob_to_regex "?**?**?" = [Tok.lit [], Tok.atLeast 3, Tok.lit []] := by decide

example : reMatch (glob_to_regex "?**?**?") "abc" = true := by decide

example : reMatch (glob_to_regex "?**?**?") "ab" = false := by decide

example : reMatch (glob_to_regex "a?c") "aBc" = true := by decide

example : reMatch (glob_to_regex "a?c") "abbc" = false := by decide

example : reMatch (glob_to_regex "@spam:*") "@SPAM:example.org" = true := by decide


theorem superseded_self (r : Event) : superseded r r = false := by
  simp [superseded]

theorem processEvent_not_superseded {r e : Event} (bl : BanList)
    (h : superseded r e = false) :
    processEvent (some r) bl e = processEvent none bl e := by
  simp [processEvent, supersededFor, h]

theorem processEvent_superseded {r e : Event} (bl : BanList)
    (h : superseded r e = true) :
    processEvent (some r) bl e = bl := by
  by_cases hk : state_key e = none
  · simp [processEvent, hk]
  · simp [processEvent, hk, supersededFor, h]

theorem foldl_processEvent_filter (r : Event) (L : List Event) (bl : BanList) :
    L.foldl (processEvent (some r)) bl
      = (L.filter (fun e => !superseded r e)).foldl (processEvent none) bl := by
  induction L generalizing bl with
  | nil => rfl
  | cons e L ih =>
    by_cases h : superseded r e
    · simp [List.filter_cons, h, processEvent_superseded bl h, ih]
    · have h' : superseded r e = false := by simpa using h
      simp [List.filter_cons, h', processEvent_not_superseded bl h', ih]

theorem mem_allRules_processEvent {rule : ListRule} {bl : BanList}
    (w : Option Event) (e : Event) (h : rule ∈ allRules bl) :
    rule ∈ allRules (processEvent w bl e) := by
  simp only [allRules, List.mem_append] at h
  unfold processEvent
  split
  · simp only [allRules, List.mem_append]; tauto
  split
  · simp only [allRules, List.mem_append]; tauto
  split
  · split
    · simp only [allRules, List.mem_append]; tauto
    · split
      · simp only [allRules, List.mem_append]; tauto
      · split
        · simp only [allRules, List.mem_append]; tauto
        · simp only [allRules, List.mem_append]; tauto
  · simp only [allRules, List.mem_append]; tauto

theorem mem_allRules_foldl {rule : ListRule} (w : Option Event) (L : List Event)
    (bl : BanList) (h : rule ∈ allRules bl) :
    rule ∈ allRules (L.foldl (processEvent w) bl) := by
  induction L generalizing bl with
  | nil => exact h
  | cons e L ih => exact ih _ (mem_allRules_processEvent w e h)

theorem mem_allRules_processEvent_self {e : Event} (w : Option Event) (bl : BanList)
    (hkey : state_key e ≠ none) (hsup : supersededFor w e = false)
    {en ac rs : String}
    (he : e.content.entity = some en) (hac : e.content.recommendation = some ac)
    (hrs : e.content.reason = some rs)
    (ht : event_type e ∈ USER_RULE_TYPES ∨ event_type e ∈ ROOM_RULE_TYPES
      ∨ event_type e ∈ SERVER_RULE_TYPES) :
    ruleOfEvent e ∈ allRules (processEvent w bl e) := by
  have hrule : ruleOfEvent e = ListRule.make en ac rs (event_type e) := by
    simp [ruleOfEvent, he, hac, hrs]
  by_cases h1 : event_type e ∈ USER_RULE_TYPES
  · simp [processEvent, hkey, hsup, he, hac, hrs, h1, allRules, hrule]
  · by_cases h2 : event_type e ∈ ROOM_RULE_TYPES
    · simp [processEvent, hkey, hsup, he, hac, hrs, h1, h2, allRules, hrule]
    · by_cases h3 : event_type e ∈ SERVER_RULE_TYPES
      · simp [processEvent, hkey, hsup, he, hac, hrs, h1, h2, h3, allRules, hrule]
      · exact absurd ht (by tauto)

theorem processEvent_malformed (w : Option Event) (bl : BanList) (e : Event)
    (hm : e.content.entity = none ∨ e.content.recommendation = none
      ∨ e.content.reason = none) :
    processEvent w bl e = bl := by
  obtain ⟨t?, k?, ⟨en?, ac?, rs?⟩, eid⟩ := e
  cases en? <;> cases ac? <;> cases rs? <;> simp_all [processEvent]

theorem processEvent_unrecognized (w : Option Event) (bl : BanList) (e : Event)
    (h1 : event_type e ∉ USER_RULE_TYPES) (h2 : event_type e ∉ ROOM_RULE_TYPES)
    (h3 : event_type e ∉ SERVER_RULE_TYPES) :
    processEvent w bl e = bl := by
  obtain ⟨t?, k?, ⟨en?, ac?, rs?⟩, eid⟩ := e
  cases en? <;> cases ac? <;> cases rs? <;> simp_all [processEvent]

theorem foldl_processEvent_middle (w : Option Event) (i : BanList) (ss ts : List Event)
    {m : Event} (hm : ∀ bl, processEvent w bl m = bl) :
    (ss ++ m :: ts).foldl (processEvent w) i = (ss ++ ts).foldl (processEvent w) i := by
  simp [List.foldl_append, hm]

theorem buildFrom_none (events : List Event) :
    buildFrom events none = events.foldl (processEvent none) ⟨[], [], []⟩ := rfl

theorem buildFrom_some (events : List Event) (r : Event) :
    buildFrom events (some r)
      = (events ++ [r]).foldl (processEvent (some r)) ⟨[], [], []⟩ := rfl

theorem runBody_eq_buildFrom (events : List Event) (w : Option Event) (self : BanList) :
    runBody events w self = buildFrom events w := by
  cases self; rfl

/-! ### Helper lemmas on the engine scan -/

theorem scanLists_eq_firstMatch (parts : List (List ListRule)) (c : String) :
    scanLists parts c = bannedOfFirstMatch parts.flatten c := by
  induction parts with
  | nil => rfl
  | cons p ps ih =>
    simp only [scanLists, List.flatten_cons, bannedOfFirstMatch, List.find?_append]
    cases h : p.find? (fun rule => ListRule.matches rule c) with
    | some rule => simp [h]
    | none => simpa [h, bannedOfFirstMatch] using ih

theorem find?_prefix_none {α : Type} (p : α → Bool) (pre post : List α) (a : α)
    (hpre : ∀ x ∈ pre, p x = false) (ha : p a = true) :
    (pre ++ a :: post).find? p = some a := by
  have h1 : pre.find? p = none := List.find?_eq_none.mpr (by simpa using hpre)
  simp [List.find?_append, h1, List.find?_cons, ha]

/-! ### Helper lemmas on the glob splitter -/

theorem splitRuns_cons_wild {c : Char} (h : isWildcard c = true) (cs : List Char) :
    splitRuns (c :: cs)
      = match splitRuns cs with
        | [] :: run :: tail => [] :: (c :: run) :: tail
        | chunks => [] :: [c] :: chunks := by
  conv_lhs => unfold splitRuns
  rw [if_pos h]

theorem splitRuns_ne_nil (cs : List Char) : splitRuns cs ≠ [] := by
  cases cs with
  | nil => simp [splitRuns]
  | cons c cs =>
    unfold splitRuns
    by_cases h : isWildcard c <;> simp only [h, if_true, if_false, Bool.false_eq_true] <;>
      split <;> simp

theorem splitRuns_cons_not_wild {c : Char} (h : isWildcard c = false) (cs : List Char) :
    ∃ chunk tail, splitRuns cs = chunk :: tail
      ∧ splitRuns (c :: cs) = (c :: chunk) :: tail := by
  obtain ⟨chunk, tail, hct⟩ : ∃ chunk tail, splitRuns cs = chunk :: tail := by
    cases hsp : splitRuns cs with
    | nil => exact absurd hsp (splitRuns_ne_nil cs)
    | cons a b => exact ⟨a, b, rfl⟩
  refine ⟨chunk, tail, hct, ?_⟩
  unfold splitRuns
  simp [h, hct]

theorem splitRuns_eq_single_nil {cs : List Char} (h : splitRuns cs = [[]]) : cs = [] := by
  cases cs with
  | nil => rfl
  | cons c cs =>
    exfalso
    by_cases hw : isWildcard c
    · rw [splitRuns_cons_wild hw] at h
      split at h <;> simp at h
    · obtain ⟨chunk, tail, _, h2⟩ := splitRuns_cons_not_wild (by simpa using hw) cs
      rw [h2] at h
      simp at h

theorem splitRuns_wild_prepend (w : List Char) (hw : w ≠ [])
    (hall : ∀ c ∈ w, isWildcard c = true) (b : List Char)
    (hb : ∀ c, b.head? = some c → isWildcard c = false) :
    splitRuns (w ++ b) = [] :: w :: splitRuns b := by
  induction w with
  | nil => exact absurd rfl hw
  | cons x w' ih =>
    have hx : isWildcard x = true := hall x (by simp)
    cases w' with
    | nil =>
      cases b with
      | nil => simp [splitRuns, hx]
      | cons c b' =>
        have hc : isWildcard c = false := hb c rfl
        obtain ⟨chunk, tail, _, h2⟩ := splitRuns_cons_not_wild hc b'
        rw [List.cons_append, List.nil_append, splitRuns_cons_wild hx, h2]
    | cons y w'' =>
      have ih2 := ih (by simp) (fun c hc => hall c (List.mem_cons_of_mem x hc))
      rw [List.cons_append, splitRuns_cons_wild hx, ih2]

theorem splitRuns_append_run (a : List Char)
    (ha : ∀ c, a.getLast? = some c → isWildcard c = false)
    (w : List Char) (hw : w ≠ []) (hall : ∀ c ∈ w, isWildcard c = true)
    (b : List Char) (hb : ∀ c, b.head? = some c → isWildcard c = false) :
    splitRuns (a ++ w ++ b) = splitRuns a ++ [w] ++ splitRuns b := by
  induction a with
  | nil => simpa [splitRuns] using splitRuns_wild_prepend w hw hall b hb
  | cons c a' ih =>
    by_cases hc : isWildcard c
    · cases a' with
      | nil => exact absurd (ha c rfl) (by simp [hc])
      | cons d a'' =>
        have ha' : ∀ x, (d :: a'').getLast? = some x → isWildcard x = false := by
          intro x hx
          exact ha x (by rwa [List.getLast?_cons_cons])
        have ihh := ih ha'
        rcases hsp : splitRuns (d :: a'') with _ | ⟨l0, tl⟩
        · exact absurd hsp (splitRuns_ne_nil _)
        rcases l0 with _ | ⟨e, l0'⟩
        · rcases tl with _ | ⟨run, tail⟩
          · exact absurd (splitRuns_eq_single_nil hsp) (by simp)
          · rw [hsp] at ihh
            simp only [List.cons_append, List.append_assoc] at ihh ⊢
            rw [splitRuns_cons_wild hc, splitRuns_cons_wild hc, ihh, hsp]
            simp
        · rw [hsp] at ihh
          simp only [List.cons_append, List.append_assoc] at ihh ⊢
          rw [splitRuns_cons_wild hc, splitRuns_cons_wild hc, ihh, hsp]
          simp
    · have hcf : isWildcard c = false := by simpa using hc
      by_cases ha' : a' = []
      · subst ha'
        obtain ⟨chunk, tail, hsp, h2⟩ := splitRuns_cons_not_wild hcf (w ++ b)
        rw [splitRuns_wild_prepend w hw hall b hb] at hsp
        cases hsp
        simp only [List.cons_append, List.nil_append] at h2 ⊢
        rw [h2]
        simp [splitRuns, hcf]
      · have haa : ∀ x, a'.getLast? = some x → isWildcard x = false := by
          intro x hx
          rcases a' with _ | ⟨d, a''⟩
          · simp at hx
          · exact ha x (by rwa [List.getLast?_cons_cons])
        have ihh := ih haa
        obtain ⟨chunk, tail, hsp, h2⟩ := splitRuns_cons_not_wild hcf (a' ++ w ++ b)
        rw [ihh] at hsp
        rcases hsp2 : splitRuns a' with _ | ⟨ch0, tl0⟩
        · exact absurd hsp2 (splitRuns_ne_nil _)
        rw [hsp2] at hsp
        simp only [List.cons_append, List.append_assoc] at hsp
        cases hsp
        obtain ⟨chunk1, tail1, hsp1, h21⟩ := splitRuns_cons_not_wild hcf a'
        rw [hsp2] at hsp1
        cases hsp1
        simp only [List.cons_append, List.append_assoc] at h2 h21 ⊢
        rw [h2, h21]
        simp

theorem endsWithWildcard_false {a : List Char} (h : endsWithWildcard a = false) :
    ∀ c, a.getLast? = some c → isWildcard c = false := by
  intro c hc
  simpa [endsWithWildcard, hc] using h

theorem startsWithWildcard_false {b : List Char} (h : startsWithWildcard b = false) :
    ∀ c, b.head? = some c → isWildcard c = false := by
  intro c hc
  cases b with
  | nil => simp at hc
  | cons d b' =>
    simp only [List.head?_cons, Option.some.injEq] at hc
    subst hc
    simpa [startsWithWildcard] using h

theorem chunkToTok_wild {w : List Char} (hw : w ≠ [])
    (hall : ∀ c ∈ w, isWildcard c = true) :
    chunkToTok w = specRunToken w := by
  cases w with
  | nil => exact absurd rfl hw
  | cons c w' =>
    have hc : isWildcard c = true := hall c (by simp)
    simp [chunkToTok, startsWithWildcard, hc, specRunToken]

/-! ### Claim theorems -/

/-- C3.  Wildcard-run collapsing: around a maximal wildcard run, the
compiler emits exactly the spec's collapsed token — an "at least `q`
characters" token when the run has a `*` and an "exactly `q` characters"
token otherwise, `q` being the run's count of `?` — and in particular the
pattern compiled from `"?**?**?"` matches `"abc"` and `"abcd"` but not
`"ab"`. -/
theorem wildcard_run_collapsing (a w b : List Char)
    (hw : w ≠ []) (hall : w.all isWildcard = true)
    (ha : endsWithWildcard a = false) (hb : startsWithWildcard b = false) :
    glob_to_regex_list (a ++ w ++ b)
      = glob_to_regex_list a ++ [specRunToken w] ++ glob_to_regex_list b
    ∧ reMatch (glob_to_regex "?**?**?") "abc" = true
    ∧ reMatch (glob_to_regex "?**?**?") "abcd" = true
    ∧ reMatch (glob_to_regex "?**?**?") "ab" = false := by
  refine ⟨?_, by decide, by decide, by decide⟩
  have hall' : ∀ c ∈ w, isWildcard c = true := by simpa using hall
  unfold glob_to_regex_list
  rw [splitRuns_append_run a (endsWithWildcard_false ha) w hw hall' b
    (startsWithWildcard_false hb)]
  simp [chunkToTok_wild hw hall']

/-- Witness for C3 at the concrete decomposition `"x" ++ "?*" ++ "y"`. -/
theorem wildcard_run_collapsing_witness :
    (['?', '*'] : List Char) ≠ []
    ∧ glob_to_regex_list (['x'] ++ ['?', '*'] ++ ['y'])
        = glob_to_regex_list ['x'] ++ [specRunToken ['?', '*']] ++ glob_to_regex_list ['y'] :=
  ⟨by decide,
    (wildcard_run_collapsing ['x'] ['?', '*'] ['y']
      (by decide) (by decide) (by decide) (by decide)).1⟩

/-- C1.  Supersede law: an incremental rebuild over snapshot `S` with the
fresh record `r` behaves exactly like a full rebuild over `S` with every
record of identical type and state key but different identity filtered
out, followed by `r`; the resulting rule set contains the rule built from
`r`, and deleting any record `r` supersedes from the snapshot does not
change the result (a superseded stale record contributes no rule). -/
theorem supersede_law (S : List Event) (r : Event) (en ac rs : String)
    (hkey : state_key r ≠ none)
    (he : r.content.entity = some en) (hac : r.content.recommendation = some ac)
    (hrs : r.content.reason = some rs)
    (ht : event_type r ∈ USER_RULE_TYPES ∨ event_type r ∈ ROOM_RULE_TYPES
      ∨ event_type r ∈ SERVER_RULE_TYPES) :
    buildFrom S (some r) = buildFrom (S.filter (fun e => !superseded r e) ++ [r]) none
    ∧ ruleOfEvent r ∈ allRules (buildFrom S (some r))
    ∧ ∀ ss s ts, S = ss ++ s :: ts → superseded r s = true →
        buildFrom S (some r) = buildFrom (ss ++ ts) (some r) := by
  refine ⟨?_, ?_, ?_⟩
  · rw [buildFrom_some, buildFrom_none, List.foldl_append, List.foldl_append]
    simp only [List.foldl_cons, List.foldl_nil]
    rw [foldl_processEvent_filter r S]
    rw [processEvent_not_superseded _ (superseded_self r)]
  · rw [buildFrom_some, List.foldl_append]
    simp only [List.foldl_cons, List.foldl_nil]
    exact mem_allRules_processEvent_self (some r) _ hkey
      (by simp [supersededFor, superseded_self]) he hac hrs ht
  · intro ss s ts hS hsup
    subst hS
    have hsplit : (ss ++ s :: ts) ++ [r] = ss ++ s :: (ts ++ [r]) := by simp
    rw [buildFrom_some, buildFrom_some, hsplit,
      foldl_processEvent_middle (some r) _ ss (ts ++ [r])
        (fun bl => processEvent_superseded bl hsup)]
    simp [List.append_assoc]

/-- Witness for C1: the fresh record `sampleFreshUser` supersedes the
stale `sampleBanUser` of the same type and key, and its rule lands in the
rebuilt set. -/
theorem supersede_law_witness :
    state_key sampleFreshUser ≠ none
    ∧ superseded sampleFreshUser sampleBanUser = true
    ∧ buildFrom [sampleBanUser] (some sampleFreshUser)
        = buildFrom ([sampleBanUser].filter (fun e => !superseded sampleFreshUser e)
            ++ [sampleFreshUser]) none
    ∧ ruleOfEvent sampleFreshUser ∈ allRules (buildFrom [sampleBanUser] (some sampleFreshUser)) := by
  have h := supersede_law [sampleBanUser] sampleFreshUser "@new:*" "m.ban" "r2"
    (by decide) rfl rfl rfl (Or.inl (by decide))
  exact ⟨by decide, by decide, h.1, h.2.1⟩

/-- C7.  Malformed-record drop: a record whose content lacks its entity,
recommendation or reason field contributes no rule to any partition, and
removing it from the snapshot leaves the full rebuild of the remaining
records unchanged (the rebuild neither aborts nor treats the other
records differently). -/
theorem malformed_record_drop (ss ts : List Event) (m : Event)
    (hm : m.content.entity = none ∨ m.content.recommendation = none
      ∨ m.content.reason = none) :
    buildFrom (ss ++ m :: ts) none = buildFrom (ss ++ ts) none := by
  rw [buildFrom_none, buildFrom_none]
  exact foldl_processEvent_middle none _ ss ts
    (fun bl => processEvent_malformed none bl m hm)

/-- Witness for C7: a record missing `reason`, between two well-formed
records, is dropped. -/
theorem malformed_record_drop_witness :
    sampleMalformedFresh.content.reason = none
    ∧ buildFrom ([sampleBanUser] ++ sampleMalformedFresh :: [sampleNoKey]) none
        = buildFrom ([sampleBanUser] ++ [sampleNoKey]) none :=
  ⟨rfl, malformed_record_drop [sampleBanUser] [sampleNoKey] sampleMalformedFresh
    (Or.inr (Or.inr rfl))⟩

/-- C9.  A malformed fresh record still supersedes: the supersede skip of
the incremental rebuild runs before the validity check, so when the fresh
record `r` shares type and state key with a snapshot record `s` (with a
different identity) but is itself missing a content field, the result
contains neither `s`'s rule (deleting `s` changes nothing) nor any rule
from `r` (the rebuild equals a full rebuild over the records `r` does not
supersede, without `r`). -/
theorem malformed_replacement_deletes (ss ts : List Event) (s r : Event)
    (hsup : superseded r s = true)
    (hm : r.content.entity = none ∨ r.content.recommendation = none
      ∨ r.content.reason = none) :
    buildFrom (ss ++ s :: ts) (some r) = buildFrom (ss ++ ts) (some r)
    ∧ buildFrom (ss ++ ts) (some r)
        = buildFrom ((ss ++ ts).filter (fun e => !superseded r e)) none := by
  constructor
  · have hsplit : (ss ++ s :: ts) ++ [r] = ss ++ s :: (ts ++ [r]) := by simp
    rw [buildFrom_some, buildFrom_some, hsplit,
      foldl_processEvent_middle (some r) _ ss (ts ++ [r])
        (fun bl => processEvent_superseded bl hsup)]
    simp [List.append_assoc]
  · rw [buildFrom_some, buildFrom_none, List.foldl_append]
    simp only [List.foldl_cons, List.foldl_nil]
    rw [processEvent_malformed (some r) _ r hm]
    rw [foldl_processEvent_filter r (ss ++ ts)]

/-- Witness for C9: a malformed replacement of `sampleBanUser` silently
deletes the old rule and adds none, leaving an empty rule set. -/
theorem malformed_replacement_deletes_witness :
    superseded sampleMalformedFresh sampleBanUser = true
    ∧ sampleMalformedFresh.content.reason = none
    ∧ buildFrom ([] ++ sampleBanUser :: []) (some sampleMalformedFresh)
        = buildFrom ([] ++ []) (some sampleMalformedFresh) :=
  ⟨by decide, rfl,
    (malformed_replacement_deletes [] [] sampleBanUser sampleMalformedFresh
      (by decide) (Or.inr (Or.inr rfl))).1⟩

/-- C10.  Only an explicitly null state key marks a non-policy record: the
effective state key is `None` exactly when the field is present and null;
a record lacking the field entirely gets the default key `""`, and when
such a keyless record is well-formed and of a recognized rule type its
rule appears in the rebuilt rule set. -/
theorem missing_state_key_processed (ss ts : List Event) (e : Event) (en ac rs : String)
    (habs : e.state_key? = none)
    (he : e.content.entity = some en) (hac : e.content.recommendation = some ac)
    (hrs : e.content.reason = some rs)
    (ht : event_type e ∈ USER_RULE_TYPES ∨ event_type e ∈ ROOM_RULE_TYPES
      ∨ event_type e ∈ SERVER_RULE_TYPES) :
    state_key e = some ""
    ∧ (∀ ev : Event, state_key ev = none ↔ ev.state_key? = some none)
    ∧ ruleOfEvent e ∈ allRules (buildFrom (ss ++ e :: ts) none) := by
  refine ⟨by simp [state_key, habs], ?_, ?_⟩
  · intro ev
    cases hsk : ev.state_key? with
    | none => simp [state_key, hsk]
    | some v => cases v <;> simp [state_key, hsk]
  · rw [buildFrom_none, List.foldl_append]
    simp only [List.foldl_cons]
    apply mem_allRules_foldl
    exact mem_allRules_processEvent_self none _ (by simp [state_key, habs]) rfl he hac hrs ht

/-- Witness for C10: the keyless `sampleNoKey` record still produces its
rule in a rebuild. -/
theorem missing_state_key_processed_witness :
    sampleNoKey.state_key? = none
    ∧ state_key sampleNoKey = some ""
    ∧ ruleOfEvent sampleNoKey ∈ allRules (buildFrom ([sampleBanUser] ++ sampleNoKey :: []) none) := by
  have h := missing_state_key_processed [sampleBanUser] [] sampleNoKey
    "@keyless:*" "m.ban" "r4" rfl rfl rfl rfl (Or.inl (by decide))
  exact ⟨rfl, h.1, h.2.2⟩

/-- C8.  Rebuild failure atomicity: the state-event fetch is the first
step of the rebuild, so a failed fetch leaves all three partitions of the
previous `BanList` exactly as they were, while a successful fetch replaces
them with the rebuild of the fetched snapshot regardless of the previous
contents. -/
theorem rebuild_failure_atomicity (err : String) (w : Option Event) (self : BanList)
    (events : List Event) :
    build (Except.error err) w self = self
    ∧ build (Except.ok events) w self = buildFrom events w :=
  ⟨rfl, runBody_eq_buildFrom events w self⟩

/-- C2.  First-match law for the (spec-modelled) engine queries: each of
`is_user_banned` / `is_room_banned` / `is_server_banned` equals the
decision of the first matching rule over the concatenation, in container
iteration order and then construction order, of the corresponding
partitions — `true` iff that rule's normalized action is Ban, `false`
when no rule matches anywhere; and whenever the concatenated rules split
as `pre ++ rule :: post` with nothing in `pre` matching and `rule`
matching, the scan's answer is decided by `rule` alone, whatever follows
it. -/
theorem first_match_law (engine : PolicyEngine) (c : String) :
    is_user_banned engine c
      = bannedOfFirstMatch ((engine.rooms_to_lists.map (fun kv => kv.2.user_rules)).flatten) c
    ∧ is_room_banned engine c
      = bannedOfFirstMatch ((engine.rooms_to_lists.map (fun kv => kv.2.room_rules)).flatten) c
    ∧ is_server_banned engine c
      = bannedOfFirstMatch ((engine.rooms_to_lists.map (fun kv => kv.2.server_rules)).flatten) c
    ∧ ∀ (parts : List (List ListRule)) (pre post : List ListRule) (rule : ListRule)
        (cand : String), parts.flatten = pre ++ rule :: post →
        (∀ q ∈ pre, ListRule.matches q cand = false) → ListRule.matches rule cand = true →
        scanLists parts cand = (rule.action == some RECOMMENDATION_BAN) := by
  refine ⟨scanLists_eq_firstMatch _ c, scanLists_eq_firstMatch _ c,
    scanLists_eq_firstMatch _ c, ?_⟩
  intro parts pre post rule cand hflat hpre hrule
  rw [scanLists_eq_firstMatch, hflat]
  unfold bannedOfFirstMatch
  rw [find?_prefix_none _ pre post rule hpre hrule]

/-- Witness for C2: with two rules on the same glob, the first (a ban)
decides, even though the second also matches. -/
theorem first_match_law_witness :
    ListRule.matches ruleA "@spam:example.org" = true
    ∧ scanLists [[ruleA, ruleB]] "@spam:example.org"
        = (ruleA.action == some RECOMMENDATION_BAN)
    ∧ scanLists [[ruleA, ruleB]] "@spam:example.org" = true := by
  have h := (first_match_law ⟨[]⟩ "").2.2.2 [[ruleA, ruleB]] [] [ruleB] ruleA
    "@spam:example.org" (by simp) (by simp) (by decide)
  exact ⟨by decide, h, by rw [h]; decide⟩

/-- C6.  Normalization totality and inertness: rule construction succeeds
for arbitrary action and kind strings; an unrecognized action or kind
normalizes to the `None` sentinel; a first-matching rule whose normalized
action is not Ban never yields a ban decision; and a record whose type is
recognized by none of the three evaluated partitions contributes no rule
to a rebuild. -/
theorem normalization_inert (entity ac rs kind : String)
    (ha : ac ∉ RECOMMENDATION_BAN_TYPES) (hk : kind ∉ ALL_RULE_TYPES) :
    (ListRule.make entity ac rs kind).action = none
    ∧ (ListRule.make entity ac rs kind).kind = none
    ∧ (∀ (parts : List (List ListRule)) (cand : String) (rule : ListRule),
        (parts.flatten).find? (fun q => ListRule.matches q cand) = some rule →
        rule.action ≠ some RECOMMENDATION_BAN → scanLists parts cand = false)
    ∧ (∀ (ss ts : List Event) (e : Event), event_type e ∉ USER_RULE_TYPES →
        event_type e ∉ ROOM_RULE_TYPES → event_type e ∉ SERVER_RULE_TYPES →
        buildFrom (ss ++ e :: ts) none = buildFrom (ss ++ ts) none) := by
  have hk5 : kind ∉ USER_RULE_TYPES ∧ kind ∉ ROOM_RULE_TYPES ∧ kind ∉ SERVER_RULE_TYPES
      ∧ kind ∉ REGISTRATION_EMAIL_RULE_TYPES ∧ kind ∉ REGISTRATION_IP_RULE_TYPES := by
    simp only [ALL_RULE_TYPES, List.mem_append] at hk
    tauto
  obtain ⟨h1, h2, h3, h4, h5⟩ := hk5
  refine ⟨?_, ?_, ?_, ?_⟩
  · simp [ListRule.make, recommendation_to_stable, ha]
  · simp [ListRule.make, rule_type_to_stable, h1, h2, h3, h4, h5]
  · intro parts cand rule hfind hne
    rw [scanLists_eq_firstMatch]
    unfold bannedOfFirstMatch
    rw [hfind]
    simpa using hne
  · intro ss ts e he1 he2 he3
    rw [buildFrom_none, buildFrom_none]
    exact foldl_processEvent_middle none _ ss ts
      (fun bl => processEvent_unrecognized none bl e he1 he2 he3)

/-- Witness for C6 at concrete unrecognized spellings. -/
theorem normalization_inert_witness :
    ("bogus" : String) ∉ RECOMMENDATION_BAN_TYPES
    ∧ ("weird" : String) ∉ ALL_RULE_TYPES
    ∧ (ListRule.make "@x:*" "bogus" "why" "weird").action = none
    ∧ (ListRule.make "@x:*" "bogus" "why" "weird").kind = none := by
  have h := normalization_inert "@x:*" "bogus" "why" "weird" (by decide) (by decide)
  exact ⟨by decide, by decide, h.1, h.2.1⟩

/-- C5 counterexample.  The decision queries of `antispam.py` are not
total: a configured check whose compiled search expression raises makes
`check_event_for_spam` propagate the failure instead of returning a
boolean. -/
theorem decision_totality_cex :
    check_event_for_spam (fun _ _ => Except.ok false)
        [{ search := fun _ => Except.error "eval blew up", pattern := "x" }] ()
      = Except.error "eval blew up"
    ∧ (check_event_for_spam (fun _ _ => Except.ok false)
        [{ search := fun _ => Except.error "eval blew up", pattern := "x" }] ()).isOk
      = false :=
  ⟨rfl, rfl⟩

/-- C5 amended.  When every configured check's search expression
evaluates without raising on the query's parameters and each pattern
search succeeds, the three decision queries of `antispam.py` return a
boolean; a raising check propagates its failure to the caller (see the
counterexample). -/
theorem decision_totality_amended {α : Type} (reSearch : String → String → Except String Bool)
    (checks : List (CodeCheck α)) (x : α)
    (h : ∀ check ∈ checks, ∃ s, check.search x = Except.ok s
      ∧ ∃ b, reSearch check.pattern s = Except.ok b) :
    (∃ b, check_event_for_spam reSearch checks x = Except.ok b)
    ∧ (∃ b, user_may_invite reSearch checks x = Except.ok b)
    ∧ (∃ b, check_username_for_spam reSearch checks x = Except.ok b) := by
  induction checks with
  | nil => exact ⟨⟨false, rfl⟩, ⟨true, rfl⟩, ⟨true, rfl⟩⟩
  | cons check rest ih =>
    obtain ⟨s, hs, b, hb⟩ := h check (by simp)
    obtain ⟨⟨b1, hb1⟩, ⟨b2, hb2⟩, ⟨b3, hb3⟩⟩ := ih (fun c hc => h c (List.mem_cons_of_mem _ hc))
    refine ⟨?_, ?_, ?_⟩
    · cases b with
      | true => exact ⟨true, by simp [check_event_for_spam, hs, hb]⟩
      | false => exact ⟨b1, by simp [check_event_for_spam, hs, hb, hb1]⟩
    · cases b with
      | true => exact ⟨false, by simp [user_may_invite, hs, hb]⟩
      | false => exact ⟨b2, by simp [user_may_invite, hs, hb, hb2]⟩
    · cases b with
      | true => exact ⟨false, by simp [check_username_for_spam, hs, hb]⟩
      | false => exact ⟨b3, by simp [check_username_for_spam, hs, hb, hb3]⟩

/-- Witness for the amended C5 with one well-behaved check. -/
theorem decision_totality_amended_witness :
    (check_event_for_spam (fun _ _ => Except.ok false)
        [{ search := fun _ => Except.ok "hello", pattern := "x" }] ()).isOk = true := by
  obtain ⟨b, hb⟩ := (decision_totality_amended (fun _ _ => Except.ok false)
    [{ search := fun _ => Except.ok "hello", pattern := "x" }] ()
    (fun check hc => by
      rw [List.mem_singleton.mp hc]
      exact ⟨"hello", rfl, false, rfl⟩)).1
  rw [hb]
  rfl

end Mjolnir
